import Mathlib

set_option maxRecDepth 100000

/-!
Shallow embedding of the Current_Sensor_Plotter repository.

Source files modelled:
- read_current.py: Modbus-RTU CRC16 (calculate_crc16), command construction
  (send_command), the serial receive loop with CRC validation
  (receive_data_with_crc), the rolling deque of processed samples, and the
  main polling loop.
- read_current_gui.py: the GUI reader thread (CurrentSensorApp.read_serial_data)
  that appends paired (time, current) samples to two lists bounded at 500 points.

Machine integers are modelled as Nat with explicit masking where the source
masks; byte streams are lists; the serial port is modelled as a list of events
(a byte, a timeout gap, or a raised SerialException); Python floats stored by
the GUI are modelled as exact rationals, which is harmless for the claims
proved here (they concern lengths, ordering and control flow, not rounding).
-/

/-- One round of the CRC loop body (read_current.py lines 16-20): if the low
bit is set, shift right and XOR with the polynomial 0xA001, else just shift. -/
def crcRound (crc : Nat) : Nat :=
  if crc % 2 = 1 then (crc / 2) ^^^ 0xA001 else crc / 2

/-- Processing of one input byte (read_current.py lines 14-20): XOR the byte
into the accumulator, then run 8 rounds. -/
def crcByte (crc b : Nat) : Nat :=
  crcRound^[8] (crc ^^^ b)

/-- Embedding of calculate_crc16 (read_current.py lines 7-21): fold the
per-byte step over the data starting from 0xFFFF, then mask to 16 bits. -/
def calculate_crc16 (data : List Nat) : Nat :=
  (data.foldl crcByte 0xFFFF) &&& 0xFFFF

/-- Reference round, written from the specification text (spec section 4.1):
if the low bit of the accumulator is set, right-shift by 1 and XOR with
0xA001; otherwise right-shift by 1 with no XOR. -/
def crc16_spec_step (crc : Nat) : Nat :=
  if crc.testBit 0 then (crc >>> 1) ^^^ 0xA001 else crc >>> 1

/-- Reference per-byte step from the specification: XOR the byte into the low
byte of the accumulator (bytes are below 256, so this is XOR into the
accumulator), then 8 iterations of the round. -/
def crc16_spec_byteStep (crc b : Nat) : Nat :=
  crc16_spec_step^[8] (crc ^^^ b)

/-- Modbus-RTU CRC16 reference definition, written from the specification
text: accumulator starts at 0xFFFF, each byte is folded in, and the final
16-bit accumulator is returned. -/
def crc16_spec (data : List Nat) : Nat :=
  (data.foldl crc16_spec_byteStep 0xFFFF) &&& 0xFFFF

/-- The 6 header bytes of the outgoing command (read_current.py line 28):
address 0x01, function 0x03, register 0x0056 big-endian, count 0x0001
big-endian. -/
def command_header : List Nat := [0x01, 0x03, 0x00, 0x56, 0x00, 0x01]

/-- Little-endian 16-bit packing, the embedding of struct.pack of a
16-bit value (read_current.py line 30): low byte first, then high byte. -/
def packLE (v : Nat) : List Nat := [v % 256, v / 256 % 256]

/-- The full 8-byte command written by send_command (read_current.py
lines 28-31): header plus the CRC16 of the header appended little-endian. -/
def send_command_bytes : List Nat :=
  command_header ++ packLE (calculate_crc16 command_header)

/-- The code round equals the specification round: low-bit test is parity,
and right-shift by one is division by two. -/
theorem crcRound_eq_spec_step : crcRound = crc16_spec_step := by
  funext n
  unfold crcRound crc16_spec_step
  simp only [Nat.testBit_zero, decide_eq_true_eq, Nat.shiftRight_one]

theorem crcByte_eq_spec_byteStep : crcByte = crc16_spec_byteStep := by
  funext crc b
  unfold crcByte crc16_spec_byteStep
  rw [crcRound_eq_spec_step]

/-- C1: For every byte sequence b, calculate_crc16 b equals the Modbus-RTU
CRC16 reference definition (accumulator starts at 0xFFFF; each byte is XORed
into the accumulator and followed by 8 shift/XOR-0xA001 rounds; the final
16-bit accumulator is the result); in particular the CRC of the empty
sequence is 0xFFFF. -/
theorem crc16_matches_modbus_reference :
    (∀ data : List Nat, calculate_crc16 data = crc16_spec data) ∧
    calculate_crc16 [] = 0xFFFF := by
  refine ⟨fun data => ?_, by decide⟩
  unfold calculate_crc16 crc16_spec
  rw [crcByte_eq_spec_byteStep]

/-- C2: The command frame written by send_command is exactly 8 bytes: the 6
header bytes 01 03 00 56 00 01 followed by the CRC16 of those 6 bytes
appended little-endian (low byte 0x64, then high byte 0x1A, since the CRC is
0x1A64). -/
theorem send_command_frame_bytes :
    send_command_bytes.length = 8 ∧
    send_command_bytes =
      command_header ++
        [calculate_crc16 command_header % 256,
         calculate_crc16 command_header / 256 % 256] ∧
    calculate_crc16 command_header = 0x1A64 ∧
    send_command_bytes = [0x01, 0x03, 0x00, 0x56, 0x00, 0x01, 0x64, 0x1A] := by
  refine ⟨by decide, rfl, by decide, by decide⟩

/-- Events produced by the serial port as seen by ser.read: a byte arrives, a
read deadline passes with no byte (timeout gap), or the port raises a
SerialException. Once the list is exhausted every read times out empty. -/
inductive SerialEv
  | byte (b : Nat)
  | gap
  | fail
deriving DecidableEq

/-- Typed classification of one pass through the body of the while-loop of
receive_data_with_crc (read_current.py lines 41-69). The constructor names
follow the error taxonomy of the specification where a code path corresponds
to one: incomplete matches the comment at line 53, crcMismatch the print at
line 69. -/
inductive StepOut
  | value (v : Nat)
  | skipped
  | emptyRead
  | incomplete
  | crcMismatch
  | raised
  | exhausted
deriving DecidableEq

/-- Possible overall outcomes of receive_data_with_crc: a returned data value
(line 67), the Python loop running forever because every further read times
out empty (the code has no timeout exit), or a SerialException caught at
line 71 making the function return None. -/
inductive RecvOutcome
  | value (v : Nat)
  | hang
  | exnNone
deriving DecidableEq

/-- Error taxonomy of the specification (section 7). The code itself carries
no such type; it is used on the claim side when comparing the claimed
validation order with what the code does. -/
inductive FrameError
  | IncompleteFrame
  | UnexpectedAddress
  | ChecksumMismatch
  | Timeout
deriving DecidableEq

/-- Embedding of ser.read n for n greater than one (read_current.py line 50):
collect up to n bytes, stopping early when the timeout passes with no byte
(a gap event) or when the stream is exhausted; none models the read raising
a SerialException. -/
def read_chunk : Nat → List SerialEv → Option (List Nat × List SerialEv)
  | 0, s => some ([], s)
  | _ + 1, [] => some ([], [])
  | _ + 1, SerialEv.gap :: r => some ([], r)
  | _ + 1, SerialEv.fail :: _ => none
  | n + 1, SerialEv.byte b :: r =>
    (read_chunk n r).map (fun p => (b :: p.1, p.2))

/-- The 16-bit value the code extracts from a frame (read_current.py
lines 56-58): frame[3] shifted left by 8, ORed with frame[4]. -/
def decodedValue (frame : List Nat) : Nat :=
  ((frame.getD 3 0) <<< 8) ||| frame.getD 4 0

/-- The CRC carried by the frame, read little-endian from its last two bytes
by struct.unpack (read_current.py line 61). -/
def receivedCrc (frame : List Nat) : Nat :=
  frame.getD 5 0 + 256 * frame.getD 6 0

/-- What the code does with an assembled frame (read_current.py lines 52-69):
discard it if shorter than 7 bytes (line 52), otherwise compare the received
little-endian CRC with the CRC computed over all but the last two bytes,
returning the decoded value on a match and discarding the frame on a
mismatch. The second component is the stream left for the next iteration. -/
def frameCheck (frame : List Nat) (r' : List SerialEv) : StepOut × List SerialEv :=
  if frame.length < 7 then (.incomplete, r')
  else if receivedCrc frame = calculate_crc16 (frame.take (frame.length - 2))
  then (.value (decodedValue frame), r')
  else (.crcMismatch, r')

/-- One pass through the body of the while-loop of receive_data_with_crc
(read_current.py lines 41-69), returning its classification and the stream
that remains: read one byte (empty read just continues); a byte other than
0x01 is discarded; on 0x01 read six more bytes and check the assembled
frame. -/
def loopStep : List SerialEv → StepOut × List SerialEv
  | [] => (.exhausted, [])
  | SerialEv.fail :: r => (.raised, r)
  | SerialEv.gap :: r => (.emptyRead, r)
  | SerialEv.byte b :: r =>
    if b = 0x01 then
      match read_chunk 6 r with
      | none => (.raised, r)
      | some (bs, r') => frameCheck (b :: bs) r'
    else (.skipped, r)

/-- Fuelled iteration of loopStep: the while-loop of receive_data_with_crc.
Each iteration consumes at least one stream event, so fuel one greater than
the stream length is always enough; fuel zero is never reached from the
wrapper below. -/
def receiveAux : Nat → List SerialEv → RecvOutcome
  | 0, _ => .hang
  | fuel + 1, s =>
    match loopStep s with
    | (.value v, _) => .value v
    | (.raised, _) => .exnNone
    | (.exhausted, _) => .hang
    | (_, s') => receiveAux fuel s'

/-- Embedding of receive_data_with_crc (read_current.py lines 34-72) over a
serial event stream. -/
def receive_data_with_crc (s : List SerialEv) : RecvOutcome :=
  receiveAux (s.length + 1) s

theorem read_chunk_length_le :
    ∀ (n : Nat) (s : List SerialEv) (bs : List Nat) (s' : List SerialEv),
      read_chunk n s = some (bs, s') → s'.length ≤ s.length ∧ bs.length ≤ n := by
  intro n
  induction n with
  | zero =>
    intro s bs s' h
    simp only [read_chunk, Option.some.injEq, Prod.mk.injEq] at h
    obtain ⟨rfl, rfl⟩ := h
    exact ⟨Nat.le_refl _, Nat.le_refl _⟩
  | succ n ih =>
    intro s bs s' h
    match s with
    | [] =>
      simp only [read_chunk, Option.some.injEq, Prod.mk.injEq] at h
      obtain ⟨rfl, rfl⟩ := h
      exact ⟨Nat.le_refl _, Nat.zero_le _⟩
    | SerialEv.gap :: r =>
      simp only [read_chunk, Option.some.injEq, Prod.mk.injEq] at h
      obtain ⟨rfl, rfl⟩ := h
      exact ⟨Nat.le_succ _, Nat.zero_le _⟩
    | SerialEv.fail :: r => simp [read_chunk] at h
    | SerialEv.byte b :: r =>
      simp only [read_chunk, Option.map_eq_some'] at h
      obtain ⟨⟨bs₀, s₀⟩, hrc, hp⟩ := h
      obtain ⟨h₁, h₂⟩ := ih r bs₀ s₀ hrc
      cases hp
      exact ⟨Nat.le_succ_of_le h₁, Nat.succ_le_succ h₂⟩

theorem read_chunk_bytes :
    ∀ (l : List Nat) (s : List SerialEv),
      read_chunk l.length (l.map SerialEv.byte ++ s) = some (l, s) := by
  intro l
  induction l with
  | nil => intro s; cases s <;> rfl
  | cons b t ih =>
    intro s
    have := ih s
    simp only [List.length_cons, List.map_cons, List.cons_append, read_chunk]
    rw [List.append_eq, this]
    rfl

theorem frameCheck_incomplete (frame : List Nat) (r' : List SerialEv)
    (h : frame.length < 7) : frameCheck frame r' = (.incomplete, r') := by
  unfold frameCheck
  rw [if_pos h]

theorem frameCheck_value (frame : List Nat) (r' : List SerialEv)
    (h7 : frame.length = 7)
    (hcrc : receivedCrc frame = calculate_crc16 (frame.take 5)) :
    frameCheck frame r' = (.value (decodedValue frame), r') := by
  unfold frameCheck
  rw [if_neg (by omega), h7]
  have h52 : (7 : Nat) - 2 = 5 := rfl
  rw [h52, if_pos hcrc]

theorem frameCheck_crcMismatch (frame : List Nat) (r' : List SerialEv)
    (h7 : frame.length = 7)
    (hcrc : receivedCrc frame ≠ calculate_crc16 (frame.take 5)) :
    frameCheck frame r' = (.crcMismatch, r') := by
  unfold frameCheck
  rw [if_neg (by omega), h7]
  have h52 : (7 : Nat) - 2 = 5 := rfl
  rw [h52, if_neg hcrc]

theorem frameCheck_snd (frame : List Nat) (r' : List SerialEv) :
    (frameCheck frame r').2 = r' := by
  unfold frameCheck
  split
  · rfl
  · split <;> rfl

theorem loopStep_skip (b : Nat) (r : List SerialEv) (h : b ≠ 1) :
    loopStep (SerialEv.byte b :: r) = (.skipped, r) := by
  simp [loopStep, h]

theorem loopStep_gap (r : List SerialEv) :
    loopStep (SerialEv.gap :: r) = (.emptyRead, r) := rfl

theorem loopStep_fail (r : List SerialEv) :
    loopStep (SerialEv.fail :: r) = (.raised, r) := rfl

theorem loopStep_byte1 (r : List SerialEv) (bs : List Nat) (r' : List SerialEv)
    (hrc : read_chunk 6 r = some (bs, r')) :
    loopStep (SerialEv.byte 1 :: r) = frameCheck (1 :: bs) r' := by
  simp [loopStep, hrc]

/-- Every iteration of the receive loop consumes at least one stream event. -/
theorem loopStep_length_lt (s : List SerialEv) (o : StepOut) (s' : List SerialEv)
    (hs : s ≠ []) (h : loopStep s = (o, s')) : s'.length < s.length := by
  match s with
  | [] => exact absurd rfl hs
  | SerialEv.fail :: r =>
    rw [loopStep_fail] at h
    cases h
    exact Nat.lt_succ_self _
  | SerialEv.gap :: r =>
    rw [loopStep_gap] at h
    cases h
    exact Nat.lt_succ_self _
  | SerialEv.byte b :: r =>
    by_cases hb : b = 1
    · subst hb
      match hrc : read_chunk 6 r with
      | none =>
        simp only [loopStep, if_pos rfl, hrc] at h
        cases h
        exact Nat.lt_succ_self _
      | some (bs, r₀) =>
        rw [loopStep_byte1 r bs r₀ hrc] at h
        have hle := (read_chunk_length_le 6 r bs r₀ hrc).1
        have hsnd : s' = r₀ := by
          have := congrArg Prod.snd h
          rw [frameCheck_snd] at this
          exact this.symm
        subst hsnd
        exact Nat.lt_succ_of_le hle
    · rw [loopStep_skip b r hb] at h
      cases h
      exact Nat.lt_succ_self _

/-- With fuel above the stream length the fuelled loop is fuel-independent. -/
theorem receiveAux_congr :
    ∀ (f₁ : Nat) (s : List SerialEv) (f₂ : Nat), s.length < f₁ → s.length < f₂ →
      receiveAux f₁ s = receiveAux f₂ s := by
  intro f₁
  induction f₁ with
  | zero => intro s f₂ h₁ _; exact absurd h₁ (Nat.not_lt_zero _)
  | succ f₁ ih =>
    intro s f₂ h₁ h₂
    match f₂, h₂ with
    | f₂ + 1, h₂ =>
      show receiveAux (f₁ + 1) s = receiveAux (f₂ + 1) s
      by_cases hs : s = []
      · subst hs; rfl
      · simp only [receiveAux]
        match ho : loopStep s with
        | (.value v, s') => rfl
        | (.raised, s') => rfl
        | (.exhausted, s') =>
          exfalso
          match s, hs with
          | SerialEv.byte b :: r, _ =>
            by_cases hb : b = 1
            · subst hb
              match hrc : read_chunk 6 r with
              | none => simp [loopStep, hrc] at ho
              | some (bs, r₀) =>
                rw [loopStep_byte1 r bs r₀ hrc] at ho
                have := congrArg Prod.fst ho
                unfold frameCheck at this
                split at this
                · exact StepOut.noConfusion this
                · split at this <;> exact StepOut.noConfusion this
            · rw [loopStep_skip b r hb] at ho
              exact StepOut.noConfusion (congrArg Prod.fst ho)
          | SerialEv.gap :: r, _ =>
            rw [loopStep_gap] at ho
            exact StepOut.noConfusion (congrArg Prod.fst ho)
          | SerialEv.fail :: r, _ =>
            rw [loopStep_fail] at ho
            exact StepOut.noConfusion (congrArg Prod.fst ho)
        | (.skipped, s') =>
          have hlt := loopStep_length_lt s _ s' hs ho
          exact ih s' f₂ (by omega) (by omega)
        | (.emptyRead, s') =>
          have hlt := loopStep_length_lt s _ s' hs ho
          exact ih s' f₂ (by omega) (by omega)
        | (.incomplete, s') =>
          have hlt := loopStep_length_lt s _ s' hs ho
          exact ih s' f₂ (by omega) (by omega)
        | (.crcMismatch, s') =>
          have hlt := loopStep_length_lt s _ s' hs ho
          exact ih s' f₂ (by omega) (by omega)

theorem receive_nil : receive_data_with_crc [] = .hang := rfl

theorem receive_of_value (s s' : List SerialEv) (v : Nat)
    (h : loopStep s = (.value v, s')) : receive_data_with_crc s = .value v := by
  unfold receive_data_with_crc
  simp only [receiveAux, h]

theorem receive_of_raised (s s' : List SerialEv)
    (h : loopStep s = (.raised, s')) : receive_data_with_crc s = .exnNone := by
  unfold receive_data_with_crc
  simp only [receiveAux, h]

/-- When an iteration discards its input (noise byte, empty read, incomplete
frame or CRC mismatch) the loop carries on with the remaining stream exactly
as a fresh call would: no state survives the discarded attempt. -/
theorem receive_of_continue (s : List SerialEv) (o : StepOut) (s' : List SerialEv)
    (hs : s ≠ []) (h : loopStep s = (o, s'))
    (ho : o = .skipped ∨ o = .emptyRead ∨ o = .incomplete ∨ o = .crcMismatch) :
    receive_data_with_crc s = receive_data_with_crc s' := by
  have hlt := loopStep_length_lt s o s' hs h
  unfold receive_data_with_crc
  have hunfold : receiveAux (s.length + 1) s = receiveAux s.length s' := by
    rcases ho with rfl | rfl | rfl | rfl <;> simp only [receiveAux, h]
  rw [hunfold]
  exact receiveAux_congr s.length s' (s'.length + 1) hlt (Nat.lt_succ_self _)

/-- A 7-byte frame with a correct address can be split off its stream. -/
theorem frame_split (frame : List Nat) (h7 : frame.length = 7)
    (h0 : frame.getD 0 0 = 1) : ∃ bs : List Nat, frame = 1 :: bs ∧ bs.length = 6 := by
  match frame, h7 with
  | a :: bs, h7 =>
    have : a = 1 := h0
    subst this
    exact ⟨bs, rfl, by simpa using h7⟩

/-- C3: Every 7-byte response frame whose first byte is 0x01 and whose
trailing two bytes, read little-endian, equal the CRC16 of the first 5 bytes
is accepted: receive_data_with_crc returns the decoded value
(frame[3] shifted left 8) OR frame[4]. -/
theorem valid_frame_yields_decoded_value (frame : List Nat)
    (h7 : frame.length = 7) (h0 : frame.getD 0 0 = 1)
    (hcrc : receivedCrc frame = calculate_crc16 (frame.take 5)) :
    receive_data_with_crc (frame.map SerialEv.byte) =
      RecvOutcome.value (decodedValue frame) := by
  obtain ⟨bs, rfl, h6⟩ := frame_split frame h7 h0
  have hrc : read_chunk 6 (bs.map SerialEv.byte) = some (bs, []) := by
    have := read_chunk_bytes bs []
    rw [List.append_nil, h6] at this
    exact this
  have hstep : loopStep (SerialEv.byte 1 :: bs.map SerialEv.byte) =
      (.value (decodedValue (1 :: bs)), []) := by
    rw [loopStep_byte1 _ bs [] hrc]
    exact frameCheck_value (1 :: bs) [] h7 hcrc
  exact receive_of_value _ [] _ hstep

/-- C3 witness: the concrete frame 01 03 02 00 C8 with its correct CRC
(0xD2B9, appended little-endian as B9 D2) decodes to 200. -/
theorem valid_frame_yields_decoded_value_witness :
    receive_data_with_crc
        ([0x01, 0x03, 0x02, 0x00, 0xC8, 0xB9, 0xD2].map SerialEv.byte) =
      RecvOutcome.value 200 := by
  have h := valid_frame_yields_decoded_value [0x01, 0x03, 0x02, 0x00, 0xC8, 0xB9, 0xD2]
    (by decide) (by decide) (by decide)
  rw [h]
  decide

/-- Inversion: the only loop pass that produces a value starts with the byte
0x01, assembles a full 7-byte frame, and the frame passes the CRC check. -/
theorem loopStep_value_inv (s : List SerialEv) (v : Nat) (s' : List SerialEv)
    (h : loopStep s = (.value v, s')) :
    ∃ bs : List Nat,
      s.head? = some (SerialEv.byte 1) ∧
      read_chunk 6 s.tail = some (bs, s') ∧
      bs.length = 6 ∧
      receivedCrc (1 :: bs) = calculate_crc16 ((1 :: bs).take 5) ∧
      v = decodedValue (1 :: bs) := by
  match s with
  | [] => simp [loopStep] at h
  | SerialEv.fail :: r =>
    rw [loopStep_fail] at h
    exact absurd (congrArg Prod.fst h) (by simp)
  | SerialEv.gap :: r =>
    rw [loopStep_gap] at h
    exact absurd (congrArg Prod.fst h) (by simp)
  | SerialEv.byte b :: r =>
    by_cases hb : b = 1
    · subst hb
      match hrc : read_chunk 6 r with
      | none => simp [loopStep, hrc] at h
      | some (bs, r₀) =>
        rw [loopStep_byte1 r bs r₀ hrc] at h
        have hlen := (read_chunk_length_le 6 r bs r₀ hrc).2
        unfold frameCheck at h
        by_cases h7 : (1 :: bs).length < 7
        · rw [if_pos h7] at h
          exact absurd (congrArg Prod.fst h) (by simp)
        · rw [if_neg h7] at h
          have h6 : bs.length = 6 := by
            simp only [List.length_cons] at h7
            omega
          have htk : (1 :: bs).length - 2 = 5 := by simp [h6]
          rw [htk] at h
          by_cases hcrc : receivedCrc (1 :: bs) = calculate_crc16 ((1 :: bs).take 5)
          · rw [if_pos hcrc] at h
            simp only [Prod.mk.injEq, StepOut.value.injEq] at h
            obtain ⟨hv, hs'⟩ := h
            refine ⟨bs, rfl, ?_, h6, hcrc, hv.symm⟩
            rw [hs']
          · rw [if_neg hcrc] at h
            exact absurd (congrArg Prod.fst h) (by simp)
    · rw [loopStep_skip b r hb] at h
      exact absurd (congrArg Prod.fst h) (by simp)

/-- C4: A decoded sample value is returned only for an assembled 7-byte frame
that passed CRC verification; a 7-byte frame whose stored little-endian CRC
does not match the CRC computed over its first 5 bytes is classified as a CRC
mismatch and no value is ever returned for it (the call goes on waiting). -/
theorem value_only_with_verified_crc :
    (∀ (s : List SerialEv) (v : Nat) (s' : List SerialEv),
        loopStep s = (.value v, s') →
        ∃ bs : List Nat,
          s.head? = some (SerialEv.byte 1) ∧
          read_chunk 6 s.tail = some (bs, s') ∧
          bs.length = 6 ∧
          receivedCrc (1 :: bs) = calculate_crc16 ((1 :: bs).take 5) ∧
          v = decodedValue (1 :: bs)) ∧
    (∀ frame : List Nat, frame.length = 7 → frame.getD 0 0 = 1 →
        receivedCrc frame ≠ calculate_crc16 (frame.take 5) →
        loopStep (frame.map SerialEv.byte) = (.crcMismatch, []) ∧
        receive_data_with_crc (frame.map SerialEv.byte) = RecvOutcome.hang) := by
  refine ⟨loopStep_value_inv, ?_⟩
  intro frame h7 h0 hcrc
  obtain ⟨bs, rfl, h6⟩ := frame_split frame h7 h0
  have hrc : read_chunk 6 (bs.map SerialEv.byte) = some (bs, []) := by
    have := read_chunk_bytes bs []
    rw [List.append_nil, h6] at this
    exact this
  have hstep : loopStep ((1 :: bs).map SerialEv.byte) = (.crcMismatch, []) := by
    rw [List.map_cons, loopStep_byte1 _ bs [] hrc]
    exact frameCheck_crcMismatch (1 :: bs) [] h7 hcrc
  refine ⟨hstep, ?_⟩
  rw [receive_of_continue _ _ [] (by simp) hstep
    (Or.inr (Or.inr (Or.inr rfl)))]
  exact receive_nil

/-- C4 witness: the valid frame 01 03 02 00 C8 B9 D2 with its two CRC bytes
swapped (giving 01 03 02 00 C8 D2 B9) fails the check, is classified as a CRC
mismatch, and never yields a value. -/
theorem value_only_with_verified_crc_witness :
    loopStep ([0x01, 0x03, 0x02, 0x00, 0xC8, 0xD2, 0xB9].map SerialEv.byte) =
      (.crcMismatch, []) ∧
    receive_data_with_crc ([0x01, 0x03, 0x02, 0x00, 0xC8, 0xD2, 0xB9].map SerialEv.byte) =
      RecvOutcome.hang :=
  value_only_with_verified_crc.2 [0x01, 0x03, 0x02, 0x00, 0xC8, 0xD2, 0xB9]
    (by decide) (by decide) (by decide)

/-- Embedding of append on a deque with maxlen N (read_current.py lines 78-79
and 99: processed_data has maxlen window_size = 500): the new element goes on
the right and elements are discarded from the left while the length exceeds
N. -/
def dequePush {A : Type} (N : Nat) (buf : List A) (x : A) : List A :=
  (buf ++ [x]).drop (buf.length + 1 - N)

theorem dequePush_length {A : Type} (N : Nat) (buf : List A) (x : A) :
    (dequePush N buf x).length = min (buf.length + 1) N := by
  simp only [dequePush, List.length_drop, List.length_append, List.length_cons,
    List.length_nil]
  omega

/-- Folding pushes over a buffer no longer than capacity keeps exactly the
last N elements of the concatenation, in order. -/
theorem dequePush_foldl {A : Type} (N : Nat) :
    ∀ (xs acc : List A), acc.length ≤ N →
      List.foldl (dequePush N) acc xs =
        (acc ++ xs).drop (acc.length + xs.length - N) := by
  intro xs
  induction xs with
  | nil =>
    intro acc hacc
    simp [Nat.sub_eq_zero_of_le hacc]
  | cons x xs ih =>
    intro acc hacc
    rw [List.foldl_cons, ih _ (by rw [dequePush_length]; omega), dequePush_length]
    unfold dequePush
    rw [show acc ++ x :: xs = (acc ++ [x]) ++ xs from by simp]
    simp only [List.drop_append_eq_append_drop, List.drop_drop, List.length_drop,
      List.length_append, List.length_cons, List.length_nil]
    congr 1
    · congr 1
      · congr 1
        omega
      · congr 1
        omega
    · congr 1
      omega

/-- C5: For the rolling buffer of capacity 500, pushing 500 + k samples with
k positive leaves exactly the last 500 pushed, in push order; a push from a
state within capacity never exceeds 500; and a push at capacity evicts
exactly the oldest element. -/
theorem rolling_buffer_eviction :
    (∀ (xs : List Nat) (k : Nat), xs.length = 500 + k → 0 < k →
        List.foldl (dequePush 500) [] xs = xs.drop k ∧
        (List.foldl (dequePush 500) [] xs).length = 500) ∧
    (∀ (buf : List Nat) (x : Nat), buf.length ≤ 500 →
        (dequePush 500 buf x).length ≤ 500) ∧
    (∀ (buf : List Nat) (x : Nat), buf.length = 500 →
        dequePush 500 buf x = buf.drop 1 ++ [x]) := by
  refine ⟨?_, ?_, ?_⟩
  · intro xs k hlen hk
    have h := dequePush_foldl 500 xs [] (by simp)
    simp only [List.nil_append, List.length_nil, Nat.zero_add] at h
    have hdk : xs.length - 500 = k := by omega
    rw [hdk] at h
    refine ⟨h, ?_⟩
    rw [h, List.length_drop]
    omega
  · intro buf x hbuf
    rw [dequePush_length]
    omega
  · intro buf x hbuf
    unfold dequePush
    rw [hbuf, List.drop_append_eq_append_drop]
    norm_num [hbuf]

/-- C5 witness: pushing 501 values keeps the last 500; concrete pushes at and
below capacity behave as stated. -/
theorem rolling_buffer_eviction_witness :
    List.foldl (dequePush 500) [] (List.range 501) = (List.range 501).drop 1 ∧
    (dequePush 500 (List.range 500) 7).length ≤ 500 ∧
    dequePush 500 (List.range 500) 7 = (List.range 500).drop 1 ++ [7] :=
  ⟨(rolling_buffer_eviction.1 (List.range 501) 1 (by rw [List.length_range]) (by decide)).1,
   rolling_buffer_eviction.2.1 (List.range 500) 7 (by rw [List.length_range]),
   rolling_buffer_eviction.2.2 (List.range 500) 7 (by rw [List.length_range])⟩

/-- Validation contract exactly as the claim states it: length is checked
first, then the address byte, then the CRC, failing with the corresponding
typed error at the first violated check. Written from the claim text, for
comparison with the behaviour of the code. -/
def validate_frame_claim (bs : List Nat) : Except FrameError Nat :=
  if bs.length ≠ 7 then .error .IncompleteFrame
  else if bs.getD 0 0 ≠ 1 then .error .UnexpectedAddress
  else if receivedCrc bs ≠ calculate_crc16 (bs.take 5) then .error .ChecksumMismatch
  else .ok (decodedValue bs)

/-- C6 counterexample: on the single byte 0x05 (wrong address and wrong
length at once) the claimed checker reports IncompleteFrame — length first.
The code instead discards the byte at the start-byte (address) check before
any length can be considered: the pass is classified as a skipped byte, not
an incomplete frame, and the call then waits forever without reporting
anything for that byte. -/
theorem address_checked_before_length_cex :
    validate_frame_claim [0x05] = Except.error FrameError.IncompleteFrame ∧
    loopStep [SerialEv.byte 0x05] = (StepOut.skipped, []) ∧
    StepOut.skipped ≠ StepOut.incomplete ∧
    receive_data_with_crc [SerialEv.byte 0x05] = RecvOutcome.hang := by
  refine ⟨rfl, by decide, by decide, by decide⟩

/-- C6 amended: the code checks the start byte (the device address) first —
any byte other than 0x01 is discarded with no reported error; once a start
byte is seen the assembled frame's length is checked, short frames being
discarded as incomplete; the CRC is checked last, only on full 7-byte
frames. Each attempt stops at the first violated check. -/
theorem validation_order_address_first :
    (∀ (b : Nat) (r : List SerialEv), b ≠ 1 →
        loopStep (SerialEv.byte b :: r) = (.skipped, r)) ∧
    (∀ (r : List SerialEv) (bs : List Nat) (r' : List SerialEv),
        read_chunk 6 r = some (bs, r') → bs.length < 6 →
        loopStep (SerialEv.byte 1 :: r) = (.incomplete, r')) ∧
    (∀ (r : List SerialEv) (bs : List Nat) (r' : List SerialEv),
        read_chunk 6 r = some (bs, r') → bs.length = 6 →
        receivedCrc (1 :: bs) ≠ calculate_crc16 ((1 :: bs).take 5) →
        loopStep (SerialEv.byte 1 :: r) = (.crcMismatch, r')) ∧
    (∀ (r : List SerialEv) (bs : List Nat) (r' : List SerialEv),
        read_chunk 6 r = some (bs, r') → bs.length = 6 →
        receivedCrc (1 :: bs) = calculate_crc16 ((1 :: bs).take 5) →
        loopStep (SerialEv.byte 1 :: r) = (.value (decodedValue (1 :: bs)), r')) := by
  refine ⟨loopStep_skip, ?_, ?_, ?_⟩
  · intro r bs r' hrc hlen
    rw [loopStep_byte1 r bs r' hrc]
    exact frameCheck_incomplete _ _ (by simp only [List.length_cons]; omega)
  · intro r bs r' hrc h6 hcrc
    rw [loopStep_byte1 r bs r' hrc]
    exact frameCheck_crcMismatch _ _ (by simp [h6]) hcrc
  · intro r bs r' hrc h6 hcrc
    rw [loopStep_byte1 r bs r' hrc]
    exact frameCheck_value _ _ (by simp [h6]) hcrc

/-- C6 amended witness: one concrete input for each of the four check
outcomes, in the order the code applies them. -/
theorem validation_order_address_first_witness :
    loopStep [SerialEv.byte 5] = (StepOut.skipped, []) ∧
    loopStep (SerialEv.byte 1 :: [SerialEv.byte 3, SerialEv.gap]) =
      (StepOut.incomplete, []) ∧
    loopStep (SerialEv.byte 1 :: [3, 2, 0, 200, 0xD2, 0xB9].map SerialEv.byte) =
      (StepOut.crcMismatch, []) ∧
    loopStep (SerialEv.byte 1 :: [3, 2, 0, 200, 0xB9, 0xD2].map SerialEv.byte) =
      (StepOut.value (decodedValue (1 :: [3, 2, 0, 200, 0xB9, 0xD2])), []) :=
  ⟨validation_order_address_first.1 5 [] (by decide),
   validation_order_address_first.2.1 [SerialEv.byte 3, SerialEv.gap] [3] []
     (by decide) (by decide),
   validation_order_address_first.2.2.1 ([3, 2, 0, 200, 0xD2, 0xB9].map SerialEv.byte)
     [3, 2, 0, 200, 0xD2, 0xB9] [] (by decide) (by decide) (by decide),
   validation_order_address_first.2.2.2 ([3, 2, 0, 200, 0xB9, 0xD2].map SerialEv.byte)
     [3, 2, 0, 200, 0xB9, 0xD2] [] (by decide) (by decide) (by decide)⟩

/-- C7 counterexample: when the source only times out, receive_data_with_crc
never terminates — the loop keeps retrying the read forever (hang outcome);
there is no Timeout return path in the code at all. -/
theorem timeout_never_returned_cex :
    receive_data_with_crc [SerialEv.gap] = RecvOutcome.hang ∧
    receive_data_with_crc [] = RecvOutcome.hang :=
  ⟨rfl, rfl⟩

/-- C7 amended: while scanning for a start byte every non-matching byte is
discarded, but on timeout the code does not return a Timeout error: it
retries the read indefinitely, so a source yielding only timeouts makes the
call loop forever. -/
theorem scan_discards_and_hangs_on_timeout :
    (∀ (b : Nat) (r : List SerialEv), b ≠ 1 →
        loopStep (SerialEv.byte b :: r) = (.skipped, r) ∧
        receive_data_with_crc (SerialEv.byte b :: r) = receive_data_with_crc r) ∧
    (∀ s : List SerialEv, (∀ ev ∈ s, ev = SerialEv.gap) →
        receive_data_with_crc s = RecvOutcome.hang) := by
  constructor
  · intro b r hb
    have h := loopStep_skip b r hb
    exact ⟨h, receive_of_continue _ _ r (by simp) h (Or.inl rfl)⟩
  · intro s
    induction s with
    | nil => intro _; exact receive_nil
    | cons ev r ih =>
      intro hall
      have hev : ev = SerialEv.gap := hall ev (List.mem_cons_self ev r)
      subst hev
      rw [receive_of_continue _ _ r (by simp) (loopStep_gap r) (Or.inr (Or.inl rfl))]
      exact ih (fun e he => hall e (List.mem_cons_of_mem _ he))

/-- C7 amended witness: a noise byte is skipped with the loop carrying on,
and a two-timeout source hangs the call. -/
theorem scan_discards_and_hangs_on_timeout_witness :
    (loopStep [SerialEv.byte 0x37] = (StepOut.skipped, []) ∧
      receive_data_with_crc [SerialEv.byte 0x37] = receive_data_with_crc []) ∧
    receive_data_with_crc [SerialEv.gap, SerialEv.gap] = RecvOutcome.hang :=
  ⟨scan_discards_and_hangs_on_timeout.1 0x37 [] (by decide),
   scan_discards_and_hangs_on_timeout.2 [SerialEv.gap, SerialEv.gap] (by decide)⟩

/-- C8: when fewer than the remaining 6 bytes arrive after a start byte
before the read times out, the partial frame is discarded in its entirety —
the loop carries on with exactly the stream left after the short read, so no
byte of the partial frame survives into a later attempt — the pass is
classified IncompleteFrame, and parsing resumes with the start-byte scan on
the remaining stream. -/
theorem incomplete_frame_discarded_resumes_scan
    (r : List SerialEv) (bs : List Nat) (r' : List SerialEv)
    (hrc : read_chunk 6 r = some (bs, r')) (hlen : bs.length < 6) :
    loopStep (SerialEv.byte 1 :: r) = (.incomplete, r') ∧
    receive_data_with_crc (SerialEv.byte 1 :: r) = receive_data_with_crc r' := by
  have h : loopStep (SerialEv.byte 1 :: r) = (.incomplete, r') := by
    rw [loopStep_byte1 r bs r' hrc]
    exact frameCheck_incomplete _ _ (by simp only [List.length_cons]; omega)
  exact ⟨h, receive_of_continue _ _ r' (by simp) h (Or.inr (Or.inr (Or.inl rfl)))⟩

/-- C8 witness: a start byte followed by two bytes and a timeout, with a
complete valid frame behind it: the two-byte fragment is dropped whole and
the parse resumes on the following frame stream. -/
theorem incomplete_frame_discarded_resumes_scan_witness :
    loopStep (SerialEv.byte 1 :: ([SerialEv.byte 3, SerialEv.byte 2, SerialEv.gap] ++
        [1, 3, 2, 0, 200, 0xB9, 0xD2].map SerialEv.byte)) =
      (StepOut.incomplete, [1, 3, 2, 0, 200, 0xB9, 0xD2].map SerialEv.byte) ∧
    receive_data_with_crc (SerialEv.byte 1 ::
        ([SerialEv.byte 3, SerialEv.byte 2, SerialEv.gap] ++
          [1, 3, 2, 0, 200, 0xB9, 0xD2].map SerialEv.byte)) =
      receive_data_with_crc ([1, 3, 2, 0, 200, 0xB9, 0xD2].map SerialEv.byte) :=
  incomplete_frame_discarded_resumes_scan _ [3, 2] _ (by decide) (by decide)

/-- Result of one iteration of the main polling loop (read_current.py
lines 94-106): the body completes and the while-loop continues; an uncaught
exception escapes, terminating the loop; or the receive call never returns. -/
inductive PollResult
  | continued (buf : List ℚ)
  | crashed
  | blocked (buf : List ℚ)
deriving DecidableEq

/-- One iteration of the main polling loop (read_current.py lines 94-106)
acting on the rolling deque: send_command writes to the port first — an
exception raised by that write (line 31) is caught nowhere and crashes the
loop; otherwise receive_data_with_crc runs: a returned value is scaled by
200/10000 (exactly, in rationals) and appended to the deque of capacity 500,
while a None return — the SerialException caught at line 71 — skips the
append; in both of those cases the while-loop continues. -/
def pollIteration (buf : List ℚ) (writeFails : Bool) (s : List SerialEv) : PollResult :=
  if writeFails then .crashed
  else
    match receive_data_with_crc s with
    | .value v => .continued (dequePush 500 buf ((v : ℚ) * 200 / 10000))
    | .exnNone => .continued buf
    | .hang => .blocked buf

/-- C9 counterexample: a SerialException raised by the byte source during
receive is caught inside receive_data_with_crc — the function returns None —
and the polling loop continues with no sample appended; it is not propagated
to the caller and does not terminate the loop. -/
theorem serial_exception_not_fatal_cex :
    receive_data_with_crc [SerialEv.fail] = RecvOutcome.exnNone ∧
    pollIteration [] false [SerialEv.fail] = PollResult.continued [] ∧
    PollResult.continued [] ≠ PollResult.crashed := by
  refine ⟨rfl, rfl, by decide⟩

/-- C9 amended: frame-level failures (noise byte, empty read, incomplete
frame, CRC mismatch) are recovered locally inside the receive loop and never
abort the poll cycle; a SerialException raised during receive is likewise
caught there, surfacing only as a None return, after which the poll
iteration continues without appending. Only an exception raised while
sending (the uncaught write at line 31) escapes and terminates the loop. -/
theorem serial_exception_caught_loop_continues :
    (∀ (buf : List ℚ) (s : List SerialEv), s.head? = some SerialEv.fail →
        pollIteration buf false s = PollResult.continued buf) ∧
    (∀ (buf : List ℚ) (s : List SerialEv),
        pollIteration buf true s = PollResult.crashed) ∧
    (∀ (s : List SerialEv) (o : StepOut) (s' : List SerialEv), s ≠ [] →
        loopStep s = (o, s') →
        o = .skipped ∨ o = .emptyRead ∨ o = .incomplete ∨ o = .crcMismatch →
        receive_data_with_crc s = receive_data_with_crc s') := by
  refine ⟨?_, fun buf s => rfl, receive_of_continue⟩
  intro buf s hs
  match s, hs with
  | SerialEv.fail :: r, _ =>
    have h : receive_data_with_crc (SerialEv.fail :: r) = .exnNone :=
      receive_of_raised _ r (loopStep_fail r)
    simp [pollIteration, h]

/-- C9 amended witness: a failing read leaves the loop running with the
buffer unchanged; a failing write crashes it; an empty read is recovered. -/
theorem serial_exception_caught_loop_continues_witness :
    pollIteration [] false [SerialEv.fail] = PollResult.continued [] ∧
    pollIteration [] true [] = PollResult.crashed ∧
    receive_data_with_crc [SerialEv.gap] = receive_data_with_crc [] :=
  ⟨serial_exception_caught_loop_continues.1 [] [SerialEv.fail] rfl,
   serial_exception_caught_loop_continues.2.1 [] [],
   serial_exception_caught_loop_continues.2.2 [SerialEv.gap] StepOut.emptyRead []
     (by decide) rfl (Or.inr (Or.inl rfl))⟩

/-- What one iteration of the GUI reader thread observes
(read_current_gui.py lines 130-147): a line parsed as a float current c at
elapsed time t, a non-numeric line (the ValueError is passed over), or no
pending data. -/
inductive GuiEv
  | sample (t : ℚ) (c : ℚ)
  | junk
  | idle

/-- The two parallel instance lists of CurrentSensorApp
(read_current_gui.py lines 20-21). -/
structure GuiState where
  time_data : List ℚ
  current_data : List ℚ
deriving DecidableEq

/-- Point limit of the GUI reader (read_current_gui.py line 22). -/
def max_points : Nat := 500

/-- One iteration of the read_serial_data loop body (read_current_gui.py
lines 130-147): on a numeric line append the elapsed time and the current to
their lists, then if the time list has grown past max_points pop the first
element of both; other events leave the state unchanged. -/
def guiStep (s : GuiState) (ev : GuiEv) : GuiState :=
  match ev with
  | .sample t c =>
    if max_points < (s.time_data ++ [t]).length then
      ⟨(s.time_data ++ [t]).drop 1, (s.current_data ++ [c]).drop 1⟩
    else ⟨s.time_data ++ [t], s.current_data ++ [c]⟩
  | .junk => s
  | .idle => s

/-- The (time, current) pair recorded by an event, if any. -/
def sampleOf : GuiEv → Option (ℚ × ℚ)
  | .sample t c => some (t, c)
  | .junk => none
  | .idle => none

/-- The reader thread run from the empty state cleared at start
(read_current_gui.py lines 98-99). -/
def guiRun (evs : List GuiEv) : GuiState :=
  evs.foldl guiStep ⟨[], []⟩

theorem zip_drop_one {A B : Type} (l₁ : List A) (l₂ : List B) :
    (l₁.drop 1).zip (l₂.drop 1) = (l₁.zip l₂).drop 1 := by
  rw [List.drop_one, List.drop_one, List.drop_one, List.tail_zip]

/-- Invariant of the reader thread: the two lists stay equally long, exactly
min(number of samples, 500) long, and zip to the last 500 recorded samples. -/
theorem guiRun_invariant (evs : List GuiEv) :
    (guiRun evs).time_data.length = (guiRun evs).current_data.length ∧
    (guiRun evs).time_data.length = min (evs.filterMap sampleOf).length 500 ∧
    (guiRun evs).time_data.zip (guiRun evs).current_data =
      (evs.filterMap sampleOf).drop ((evs.filterMap sampleOf).length - 500) := by
  induction evs using List.reverseRecOn with
  | nil => exact ⟨rfl, rfl, rfl⟩
  | append_singleton evs e ih =>
    obtain ⟨ih1, ih2, ih3⟩ := ih
    have hrun : guiRun (evs ++ [e]) = guiStep (guiRun evs) e := by
      simp only [guiRun, List.foldl_append, List.foldl_cons, List.foldl_nil]
    match e with
    | GuiEv.junk =>
      rw [hrun]
      simpa [guiStep, sampleOf] using ⟨ih1, ih2, ih3⟩
    | GuiEv.idle =>
      rw [hrun]
      simpa [guiStep, sampleOf] using ⟨ih1, ih2, ih3⟩
    | GuiEv.sample t c =>
      rw [hrun]
      have hfm : (evs ++ [GuiEv.sample t c]).filterMap sampleOf =
          evs.filterMap sampleOf ++ [(t, c)] := by
        rw [List.filterMap_append]
        rfl
      rw [hfm]
      simp only [guiStep]
      by_cases hcond : max_points < ((guiRun evs).time_data ++ [t]).length
      · rw [if_pos hcond]
        have hL : (guiRun evs).time_data.length = 500 := by
          simp only [List.length_append, List.length_cons, List.length_nil,
            max_points] at hcond
          omega
        have hps : 500 ≤ (evs.filterMap sampleOf).length := by omega
        refine ⟨by simp [ih1], ?_, ?_⟩
        · simp only [List.length_drop, List.length_append, List.length_cons,
            List.length_nil]
          omega
        · rw [zip_drop_one, List.zip_append ih1, ih3]
          have hz : [t].zip [c] = [(t, c)] := rfl
          rw [hz, List.drop_append_eq_append_drop, List.drop_drop,
            List.drop_append_eq_append_drop]
          simp only [List.length_drop, List.length_append, List.length_cons,
            List.length_nil]
          congr 2 <;> omega
      · rw [if_neg hcond]
        have hL : (guiRun evs).time_data.length < 500 := by
          simp only [List.length_append, List.length_cons, List.length_nil,
            max_points] at hcond
          omega
        have hps : (evs.filterMap sampleOf).length < 500 := by omega
        refine ⟨by simp [ih1], ?_, ?_⟩
        · simp only [List.length_append, List.length_cons, List.length_nil]
          omega
        · rw [List.zip_append ih1, ih3]
          have h0 : (evs.filterMap sampleOf).length - 500 = 0 := by omega
          have h0' : (evs.filterMap sampleOf ++ [(t, c)]).length - 500 = 0 := by
            simp only [List.length_append, List.length_cons, List.length_nil]
            omega
          rw [h0, h0', List.drop_zero, List.drop_zero]
          rfl

/-- C10: after every iteration of the GUI serial-read loop, time_data and
current_data have equal length, both at most 500, and the i-th timestamp is
paired with the i-th current value: the zipped lists are exactly the last
500 recorded samples in arrival order. -/
theorem gui_time_current_paired_bounded (evs : List GuiEv) :
    (guiRun evs).time_data.length = (guiRun evs).current_data.length ∧
    (guiRun evs).time_data.length ≤ 500 ∧
    (guiRun evs).current_data.length ≤ 500 ∧
    (guiRun evs).time_data.zip (guiRun evs).current_data =
      (evs.filterMap sampleOf).drop ((evs.filterMap sampleOf).length - 500) := by
  obtain ⟨h1, h2, h3⟩ := guiRun_invariant evs
  exact ⟨h1, by omega, by omega, h3⟩
